import Mathlib

/-!
# ARC-X archive engine: verification of the specification against the code

Shallow embedding of the ARC-X gaming compressor (repository `goodvirus-project/ARC-X`,
files `src/utils.py`, `src/compressor.py`, `src/extractor.py`) and proofs settling the
frozen claims about it.

Modelling conventions:
* Python byte strings are `List Nat`; file paths are `String`.
* The zstd codec is an external collaborator: a `Codec` record of two total functions,
  with the round-trip law `decompress (compress level x) = x` taken as a hypothesis
  where a claim assumes it.
* Python dicts with a fixed key set are Lean structures whose fields are exactly the
  dict's keys; dict indexing that can raise `KeyError` is modelled by an `Option`-valued
  lookup on the key.
* Per-file exceptions are modelled by the outcome field of a `SourceFile` (compression)
  or by the shape of the archive member found (extraction); fatal exceptions are
  `Except` errors.  `try/finally` scratch-directory cleanup is an explicit wrapper that
  records that the cleanup ran on every exit path.
-/

/-! ## Strings and paths (os.path helpers used by the code) -/

/-- ASCII lower-casing of one character, as `str.lower` acts on the ASCII
extensions this program compares against. -/
def lowerChar (c : Char) : Char :=
  if 'A' ≤ c ∧ c ≤ 'Z' then Char.ofNat (c.toNat + 32) else c

/-- `str.lower` restricted to ASCII (all extension table entries are ASCII). -/
def lowerString (s : String) : String :=
  String.mk (s.data.map lowerChar)

/-- `p.rfind(c)`: index of the last occurrence of `c`, `-1` when absent. -/
def rfindChar (c : Char) (l : List Char) : Int :=
  (List.range l.length).foldl (fun (acc : Int) (i : Nat) => if l[i]? = some c then (i : Int) else acc) (-1)

/-- `os.path.splitext(p)[1]` on POSIX: the suffix from the last dot, provided that dot
lies inside the basename and some earlier basename character is not a dot
(so `".bashrc"` has no extension).  Mirrors CPython `posixpath.splitext`. -/
def splitext_ext (p : String) : String :=
  let l := p.data
  let sepIndex := rfindChar '/' l
  let dotIndex := rfindChar '.' l
  if sepIndex < dotIndex then
    if (List.range l.length).any (fun i =>
        decide (sepIndex < (i : Int)) && decide ((i : Int) < dotIndex) && (l[i]? != some '.')) then
      String.mk (l.drop dotIndex.toNat)
    else ""
  else ""

/-- `os.path.basename`: the characters after the last `'/'` (the `file` component
that `os.walk` yields). -/
def basenameStr (p : String) : String :=
  String.mk ((p.data.reverse.takeWhile (fun c => c != '/')).reverse)

/-! ## utils.py: extension tables, classifier and compression policy -/

/-- `TEXTURE_EXTENSIONS` (utils.py line 19). -/
def TEXTURE_EXTS : List String :=
  [".png", ".jpg", ".jpeg", ".tga", ".bmp", ".gif", ".tif", ".tiff", ".dds", ".ktx", ".psd"]

/-- `AUDIO_EXTENSIONS` (utils.py line 20). -/
def AUDIO_EXTS : List String :=
  [".mp3", ".wav", ".ogg", ".flac", ".aac", ".wma", ".m4a", ".aiff"]

/-- `MODEL_EXTENSIONS` (utils.py line 21). -/
def MODEL_EXTS : List String :=
  [".fbx", ".obj", ".3ds", ".blend", ".dae", ".gltf", ".glb", ".stl", ".ply"]

/-- `SCRIPT_EXTENSIONS` (utils.py line 22). -/
def SCRIPT_EXTS : List String :=
  [".txt", ".json", ".xml", ".lua", ".py", ".js", ".cs", ".cpp", ".c", ".h"]

/-- `is_texture` (utils.py lines 24-35): lowercased extension membership test. -/
def is_texture (p : String) : Bool :=
  decide (lowerString (splitext_ext p) ∈ TEXTURE_EXTS)

/-- `is_audio` (utils.py lines 37-48). -/
def is_audio (p : String) : Bool :=
  decide (lowerString (splitext_ext p) ∈ AUDIO_EXTS)

/-- `is_model` (utils.py lines 50-61). -/
def is_model (p : String) : Bool :=
  decide (lowerString (splitext_ext p) ∈ MODEL_EXTS)

/-- `is_script` (utils.py lines 63-74). -/
def is_script (p : String) : Bool :=
  decide (lowerString (splitext_ext p) ∈ SCRIPT_EXTS)

/-- `get_file_category` (utils.py lines 104-123): first matching category, else
`"Sonstige"`.  The same if/elif chain is inlined at compressor.py lines 80-89,
281-290, 491-500 and 953-962. -/
def get_file_category (p : String) : String :=
  if is_texture p then "Textur"
  else if is_audio p then "Audio"
  else if is_model p then "Modell"
  else if is_script p then "Script"
  else "Sonstige"

/-- `get_compression_level_by_type` (utils.py lines 173-204). -/
def get_compression_level_by_type (p : String) : Nat :=
  if is_script p then 12
  else if is_texture p then 5
  else if is_audio p then 2
  else if is_model p then 6
  else 3

/-- Per-file level resolution used by the archive builder (compressor.py lines 292-295
and, inside `compress_file`, lines 153-154): the run-wide override when given,
otherwise the category default. -/
def resolve_file_level (override : Option Nat) (p : String) : Nat :=
  override.getD (get_compression_level_by_type p)

/-! ### Disjointness of the extension tables -/

/-- No script extension is also a texture extension. -/
theorem texture_script_disjoint (e : String) :
    e ∈ TEXTURE_EXTS → e ∉ SCRIPT_EXTS := by
  intro h
  simp only [TEXTURE_EXTS, List.mem_cons, List.not_mem_nil, or_false] at h
  rcases h with rfl | rfl | rfl | rfl | rfl | rfl | rfl | rfl | rfl | rfl | rfl <;> decide

/-- No script extension is also an audio extension. -/
theorem audio_script_disjoint (e : String) :
    e ∈ AUDIO_EXTS → e ∉ SCRIPT_EXTS := by
  intro h
  simp only [AUDIO_EXTS, List.mem_cons, List.not_mem_nil, or_false] at h
  rcases h with rfl | rfl | rfl | rfl | rfl | rfl | rfl | rfl <;> decide

/-- No script extension is also a model extension. -/
theorem model_script_disjoint (e : String) :
    e ∈ MODEL_EXTS → e ∉ SCRIPT_EXTS := by
  intro h
  simp only [List.mem_cons, MODEL_EXTS, List.not_mem_nil, or_false] at h
  rcases h with rfl | rfl | rfl | rfl | rfl | rfl | rfl | rfl | rfl <;> decide

/-- The classifier only ever returns one of the five fixed category names. -/
theorem get_file_category_mem (p : String) :
    get_file_category p = "Textur" ∨ get_file_category p = "Audio" ∨
    get_file_category p = "Modell" ∨ get_file_category p = "Script" ∨
    get_file_category p = "Sonstige" := by
  unfold get_file_category
  split_ifs <;> simp

/-- Claim C7: with no override, the resolved compression level is exactly the category
default (Script 12, Texture 5, Audio 2, Model 6, Other 3); a global override level
supersedes every category default, and exactly one level is resolved per file. -/
theorem claim_c7 (p : String) (o : Nat) :
    (get_file_category p = "Script" → resolve_file_level none p = 12) ∧
    (get_file_category p = "Textur" → resolve_file_level none p = 5) ∧
    (get_file_category p = "Audio" → resolve_file_level none p = 2) ∧
    (get_file_category p = "Modell" → resolve_file_level none p = 6) ∧
    (get_file_category p = "Sonstige" → resolve_file_level none p = 3) ∧
    resolve_file_level (some o) p = o := by
  have htex : is_texture p = true → is_script p = false := by
    intro h
    simp only [is_texture, decide_eq_true_eq] at h
    simp only [is_script, decide_eq_false_iff_not]
    exact texture_script_disjoint _ h
  have haud : is_audio p = true → is_script p = false := by
    intro h
    simp only [is_audio, decide_eq_true_eq] at h
    simp only [is_script, decide_eq_false_iff_not]
    exact audio_script_disjoint _ h
  have hmod : is_model p = true → is_script p = false := by
    intro h
    simp only [is_model, decide_eq_true_eq] at h
    simp only [is_script, decide_eq_false_iff_not]
    exact model_script_disjoint _ h
  refine ⟨?_, ?_, ?_, ?_, ?_, rfl⟩ <;>
    · intro h
      unfold get_file_category at h
      unfold resolve_file_level Option.getD get_compression_level_by_type
      split_ifs at h ⊢ <;> simp_all

/-- Witness for C7 at concrete inputs. -/
theorem claim_c7_witness :
    resolve_file_level none "notes.txt" = 12 ∧ resolve_file_level (some 9) "bg.png" = 9 := by
  refine ⟨(claim_c7 "notes.txt" 9).1 (by decide), (claim_c7 "bg.png" 9).2.2.2.2.2⟩

/-- Claim C8: classification is a pure function of the lowercased extension:
equal lowercased extensions give equal categories; `a.PNG` and `a.png` are both
textures; an extension outside every table, and an empty or extensionless path,
give `Sonstige` (the `Other` category). -/
theorem claim_c8 (p q : String)
    (h : lowerString (splitext_ext p) = lowerString (splitext_ext q)) :
    get_file_category p = get_file_category q ∧
    get_file_category "a.PNG" = "Textur" ∧
    get_file_category "a.png" = "Textur" ∧
    (∀ r : String,
      lowerString (splitext_ext r) ∉ TEXTURE_EXTS →
      lowerString (splitext_ext r) ∉ AUDIO_EXTS →
      lowerString (splitext_ext r) ∉ MODEL_EXTS →
      lowerString (splitext_ext r) ∉ SCRIPT_EXTS →
      get_file_category r = "Sonstige") ∧
    get_file_category "" = "Sonstige" ∧
    (∀ r : String, splitext_ext r = "" → get_file_category r = "Sonstige") := by
  refine ⟨?_, by decide, by decide, ?_, by decide, ?_⟩
  · unfold get_file_category is_texture is_audio is_model is_script
    rw [h]
  · intro r h1 h2 h3 h4
    unfold get_file_category is_texture is_audio is_model is_script
    simp [h1, h2, h3, h4]
  · intro r hr
    unfold get_file_category is_texture is_audio is_model is_script
    rw [hr]
    decide

/-- Witness for C8 at concrete inputs. -/
theorem claim_c8_witness :
    get_file_category "a.PNG" = get_file_category "dir/b.png" ∧
    get_file_category "a.PNG" = "Textur" := by
  refine ⟨(claim_c8 "a.PNG" "dir/b.png" (by decide)).1,
         (claim_c8 "a.PNG" "dir/b.png" (by decide)).2.1⟩

/-! ## Codec adapter boundary -/

/-- The zstd codec adapter (`zstd.ZstdCompressor(level).stream_writer` /
`zstd.ZstdDecompressor().stream_reader`): an external collaborator modelled as a pair
of total functions over byte sequences. -/
structure Codec where
  compress : Nat → List Nat → List Nat
  decompress : List Nat → List Nat

/-- A trivially round-tripping codec, used to instantiate hypotheses at concrete
inputs. -/
def idCodec : Codec :=
  { compress := fun _ x => x, decompress := fun x => x }

/-! ## Data model: manifest, per-category statistics, source files, members -/

/-- One entry of the manifest's `files` list (compressor.py lines 316-322). -/
structure FileMeta where
  path : String
  category : String
  compression_level : Nat
  original_size : Nat
  compressed_size : Nat
  deriving DecidableEq

/-- The manifest (`arcx_metadata.json`, compressor.py lines 259-265). -/
structure Metadata where
  version : String
  created : String
  compression_mode : String
  compression_level : Option Nat
  files : List FileMeta
  deriving DecidableEq

/-- Per-category counters of the compression statistics
(`{'count': 0, 'original_size': 0, 'compressed_size': 0}`). -/
@[ext] structure CatStat where
  count : Nat
  original_size : Nat
  compressed_size : Nat
  deriving DecidableEq

/-- The `stats['categories']` dict: exactly the five fixed keys
`Textur`, `Audio`, `Modell`, `Script`, `Sonstige` (compressor.py lines 221-227). -/
@[ext] structure Categories where
  textur : CatStat
  audio : CatStat
  modell : CatStat
  script : CatStat
  sonstige : CatStat
  deriving DecidableEq

/-- The all-zero category table the stats dicts start from. -/
def Categories.init : Categories :=
  { textur := ⟨0, 0, 0⟩, audio := ⟨0, 0, 0⟩, modell := ⟨0, 0, 0⟩,
    script := ⟨0, 0, 0⟩, sonstige := ⟨0, 0, 0⟩ }

/-- `category in stats['categories']` (compressor.py line 766): membership in the
fixed key set. -/
def Categories.known (name : String) : Bool :=
  name = "Textur" || name = "Audio" || name = "Modell" || name = "Script" || name = "Sonstige"

/-- `stats['categories'][category]` incremented by one file of the given sizes
(compressor.py lines 328-330, 510-512, 767-769).  For a key outside the five the dict
lookup would raise; all call sites reach this function with a known key only. -/
def Categories.update (cs : Categories) (name : String) (dOrig dComp : Nat) : Categories :=
  if name = "Textur" then
    { cs with textur := ⟨cs.textur.count + 1, cs.textur.original_size + dOrig,
        cs.textur.compressed_size + dComp⟩ }
  else if name = "Audio" then
    { cs with audio := ⟨cs.audio.count + 1, cs.audio.original_size + dOrig,
        cs.audio.compressed_size + dComp⟩ }
  else if name = "Modell" then
    { cs with modell := ⟨cs.modell.count + 1, cs.modell.original_size + dOrig,
        cs.modell.compressed_size + dComp⟩ }
  else if name = "Script" then
    { cs with script := ⟨cs.script.count + 1, cs.script.original_size + dOrig,
        cs.script.compressed_size + dComp⟩ }
  else if name = "Sonstige" then
    { cs with sonstige := ⟨cs.sonstige.count + 1, cs.sonstige.original_size + dOrig,
        cs.sonstige.compressed_size + dComp⟩ }
  else cs

/-- The stats dict of `create_arcx_archive` (compressor.py lines 217-228) and of its
extractor (lines 698-709): exactly the keys `total_files`, `total_original_size`,
`total_compressed_size`, `categories`.  No `failed_files` key exists here. -/
structure CreateStats where
  total_files : Nat
  total_original_size : Nat
  total_compressed_size : Nat
  categories : Categories
  deriving DecidableEq

/-- Zero-initialised `CreateStats`. -/
def CreateStats.init : CreateStats :=
  { total_files := 0, total_original_size := 0, total_compressed_size := 0,
    categories := Categories.init }

/-- A value stored in the top-level stats dict: an integer counter or the nested
categories table. -/
inductive StatsVal where
  | num (n : Nat)
  | catTable (c : Categories)
  deriving DecidableEq

/-- Dict-indexing view of the stats literal at compressor.py lines 217-228:
`stats[k]` returns a value for exactly the four keys of that literal and raises
`KeyError` (here: `none`) for any other key, in particular for `"failed_files"`. -/
def CreateStats.entry (s : CreateStats) (k : String) : Option StatsVal :=
  if k = "total_files" then some (.num s.total_files)
  else if k = "total_original_size" then some (.num s.total_original_size)
  else if k = "total_compressed_size" then some (.num s.total_compressed_size)
  else if k = "categories" then some (.catTable s.categories)
  else none

/-- Success update of `CreateStats` for one file (compressor.py lines 325-330 and,
for the extractor with manifest sizes, lines 762-769). -/
def CreateStats.bump (s : CreateStats) (category : String) (osz csz : Nat) : CreateStats :=
  { total_files := s.total_files + 1,
    total_original_size := s.total_original_size + osz,
    total_compressed_size := s.total_compressed_size + csz,
    categories := s.categories.update category osz csz }

/-- How reading and compressing one source file can go: success with its contents,
failure before the compressed output is opened (missing file, permission denied at
`open`), or failure while streaming after part of the output was written. -/
inductive ReadOutcome where
  | ok (content : List Nat)
  | failAtOpen
  | failMid (written : List Nat)
  deriving DecidableEq

/-- One unit of work discovered by the `os.walk` of the source root: its path
relative to the root, and how reading it will go. -/
structure SourceFile where
  relPath : String
  outcome : ReadOutcome
  deriving DecidableEq

/-- The payload of one container member: the serialized manifest, or an opaque
pre-compressed blob (serialization by the json library is abstracted as exact). -/
inductive MemberData where
  | meta (m : Metadata)
  | blob (b : List Nat)
  deriving DecidableEq

/-- First member carrying the given name (the json/zip libraries address members by
name; archives produced by the builder never repeat a name). -/
def zipLookup : List (String × MemberData) → String → Option MemberData
  | [], _ => none
  | e :: t, name => if e.1 = name then some e.2 else zipLookup t name

/-- First value bound to a path in an output tree. -/
def lookupOut : List (String × List Nat) → String → Option (List Nat)
  | [], _ => none
  | e :: t, name => if e.1 = name then some e.2 else lookupOut t name

/-! ## create_arcx_archive (compressor.py lines 197-412) -/

/-- Intermediate state of the builder's walk: the stats dict, the manifest's growing
`files` list, and the scratch directory's contents in creation order. -/
structure CreateState where
  stats : CreateStats
  files : List FileMeta
  temp : List (String × MemberData)
  deriving DecidableEq

/-- Per-unit work of `create_arcx_archive` (compressor.py lines 268-338): classify,
resolve the level, run `compress_file` into the scratch directory, then append the
manifest entry and bump the stats.  A unit that raises is caught at line 337: a
failure at `open` leaves no trace, a failure while streaming leaves the partial
compressed output in the scratch directory; nothing is recorded either way. -/
def createStep (codec : Codec) (input_dir : String) (override : Option Nat)
    (st : CreateState) (f : SourceFile) : CreateState :=
  let file_path := input_dir ++ "/" ++ f.relPath
  let category := get_file_category file_path
  let lvl := resolve_file_level override file_path
  match f.outcome with
  | .ok content =>
      let compressed := codec.compress lvl content
      { stats := st.stats.bump category content.length compressed.length,
        files := st.files ++ [⟨f.relPath, category, lvl, content.length, compressed.length⟩],
        temp := st.temp ++ [(f.relPath ++ ".zst", .blob compressed)] }
  | .failAtOpen => st
  | .failMid w => { st with temp := st.temp ++ [(f.relPath ++ ".zst", .blob w)] }

/-- Result of `create_arcx_archive`: the returned stats, the manifest it serialized,
the assembled container (zip members in write order), and whether the `finally`
block removed the scratch directory. -/
structure BuildResult where
  stats : CreateStats
  metadata : Metadata
  container : List (String × MemberData)
  tempRemoved : Bool
  deriving DecidableEq

/-- `create_arcx_archive(input_dir, output_file, compression_level)` (compressor.py
lines 197-412): walk the tree (walk order given by `tree`), compress each unit into
the scratch directory, write the manifest there, then zip the manifest first and
every scratch file whose basename is not `arcx_metadata.json`.  The `finally` at
lines 410-412 removes the scratch directory on every exit path. -/
def create_arcx_archive (codec : Codec) (input_dir : String) (override : Option Nat)
    (created : String) (tree : List SourceFile) : BuildResult :=
  let st := tree.foldl (createStep codec input_dir override) ⟨CreateStats.init, [], []⟩
  let metadata : Metadata :=
    { version := "1.0", created := created,
      compression_mode := if override.isNone then "automatic_by_type" else "manual",
      compression_level := override, files := st.files }
  let temp := st.temp ++ [("arcx_metadata.json", .meta metadata)]
  { stats := st.stats,
    metadata := metadata,
    container := ("arcx_metadata.json", .meta metadata) ::
      temp.filter (fun e => basenameStr e.1 != "arcx_metadata.json"),
    tempRemoved := true }

/-! ### Names of scratch members -/

/-- A compressed member's name, ending in `.zst`, is never the manifest's name. -/
theorem append_zst_ne_manifest (s : String) : s ++ ".zst" ≠ "arcx_metadata.json" := by
  intro h
  have hd : s.data ++ ".zst".data = "arcx_metadata.json".data := by
    rw [← String.data_append, h]
  have hl := congrArg List.reverse hd
  rw [List.reverse_append] at hl
  have hz : (".zst".data).reverse ++ s.data.reverse
      = 't' :: 's' :: 'z' :: '.' :: s.data.reverse := rfl
  rw [hz] at hl
  have ha : ("arcx_metadata.json".data).reverse
      = 'n' :: 'o' :: 's' :: 'j' :: '.' :: 'a' :: 't' :: 'a' :: 'd' :: 'a' :: 't' :: 'e'
        :: 'm' :: '_' :: 'x' :: 'c' :: 'r' :: 'a' :: [] := rfl
  rw [ha] at hl
  injection hl with h1 _
  exact absurd h1 (by decide)

/-- Appending `.zst` is injective on names. -/
theorem append_zst_inj {s t : String} (h : s ++ ".zst" = t ++ ".zst") : s = t := by
  have hd : s.data ++ ".zst".data = t.data ++ ".zst".data := by
    rw [← String.data_append, ← String.data_append, h]
  exact String.ext (List.append_cancel_right hd)

/-- The basename of a compressed member's name still ends in `.zst`, so the zip
assembly's skip test for the manifest never matches it. -/
theorem basename_zst_ne_manifest (s : String) :
    basenameStr (s ++ ".zst") ≠ "arcx_metadata.json" := by
  intro h
  have hdata : (basenameStr (s ++ ".zst")).data = "arcx_metadata.json".data := by rw [h]
  have h1 : (basenameStr (s ++ ".zst")).data
      = (('t' :: 's' :: 'z' :: '.' :: s.data.reverse).takeWhile (fun c => c != '/')).reverse := by
    show (((s ++ ".zst").data.reverse.takeWhile (fun c => c != '/'))).reverse = _
    rw [String.data_append, List.reverse_append]
    rfl
  have h2 : ('t' :: 's' :: 'z' :: '.' :: s.data.reverse).takeWhile (fun c => c != '/')
      = 't' :: 's' :: 'z' :: '.' :: (s.data.reverse.takeWhile (fun c => c != '/')) := rfl
  rw [h1, h2] at hdata
  have h3 := congrArg List.reverse hdata
  rw [List.reverse_reverse] at h3
  have ha : ("arcx_metadata.json".data).reverse
      = 'n' :: 'o' :: 's' :: 'j' :: '.' :: 'a' :: 't' :: 'a' :: 'd' :: 'a' :: 't' :: 'e'
        :: 'm' :: '_' :: 'x' :: 'c' :: 'r' :: 'a' :: [] := rfl
  rw [ha] at h3
  injection h3 with h4 _
  exact absurd h4 (by decide)

/-! ### Characterization of the builder's walk -/

/-- Whether a unit of work will succeed. -/
def isOkOutcome (f : SourceFile) : Bool :=
  match f.outcome with
  | .ok _ => true
  | _ => false

/-- The manifest entry a unit contributes when it succeeds. -/
def metaOf (codec : Codec) (input_dir : String) (override : Option Nat)
    (f : SourceFile) : Option FileMeta :=
  match f.outcome with
  | .ok content =>
      some ⟨f.relPath, get_file_category (input_dir ++ "/" ++ f.relPath),
        resolve_file_level override (input_dir ++ "/" ++ f.relPath), content.length,
        (codec.compress (resolve_file_level override (input_dir ++ "/" ++ f.relPath))
          content).length⟩
  | _ => none

/-- The scratch-directory file a unit leaves behind (also for mid-stream failures). -/
def tempOf (codec : Codec) (input_dir : String) (override : Option Nat)
    (f : SourceFile) : Option (String × MemberData) :=
  match f.outcome with
  | .ok content =>
      some (f.relPath ++ ".zst", .blob (codec.compress
        (resolve_file_level override (input_dir ++ "/" ++ f.relPath)) content))
  | .failAtOpen => none
  | .failMid w => some (f.relPath ++ ".zst", .blob w)

/-- The builder's walk appends exactly the manifest entries of the successful units. -/
theorem create_foldl_files (codec : Codec) (dir : String) (override : Option Nat)
    (tree : List SourceFile) (st : CreateState) :
    (tree.foldl (createStep codec dir override) st).files
      = st.files ++ tree.filterMap (metaOf codec dir override) := by
  induction tree generalizing st with
  | nil => simp
  | cons f t ih =>
      rw [List.foldl_cons, ih]
      cases hf : f.outcome <;>
        simp [createStep, metaOf, hf, resolve_file_level]
  
/-- The builder's walk appends exactly the scratch files of the non-skipped units. -/
theorem create_foldl_temp (codec : Codec) (dir : String) (override : Option Nat)
    (tree : List SourceFile) (st : CreateState) :
    (tree.foldl (createStep codec dir override) st).temp
      = st.temp ++ tree.filterMap (tempOf codec dir override) := by
  induction tree generalizing st with
  | nil => simp
  | cons f t ih =>
      rw [List.foldl_cons, ih]
      cases hf : f.outcome <;>
        simp [createStep, tempOf, hf, resolve_file_level]

/-- The builder's walk counts exactly the successful units. -/
theorem create_foldl_total_files (codec : Codec) (dir : String) (override : Option Nat)
    (tree : List SourceFile) (st : CreateState) :
    (tree.foldl (createStep codec dir override) st).stats.total_files
      = st.stats.total_files + tree.countP isOkOutcome := by
  induction tree generalizing st with
  | nil => simp
  | cons f t ih =>
      rw [List.foldl_cons, ih]
      cases hf : f.outcome <;>
        simp [createStep, isOkOutcome, List.countP_cons, hf, CreateStats.bump] <;>
        omega

/-! ## compress_directory_multithreaded (compressor.py lines 415-672) -/

/-- What one worker reports for one unit: the category and sizes of a success, or a
failure.  (`process_file`, compressor.py lines 482-540.) -/
inductive UnitResult where
  | ok (category : String) (original_size compressed_size : Nat)
  | err
  deriving DecidableEq

/-- `process_file` (compressor.py lines 482-540): classify, compress at the run's
level (falling back to the per-type level inside `compress_file` when the level is
`None`), and report either the sizes or a failure caught at the unit boundary. -/
def process_file (codec : Codec) (input_dir : String) (compression_level : Option Nat)
    (f : SourceFile) : UnitResult :=
  let file_path := input_dir ++ "/" ++ f.relPath
  match f.outcome with
  | .ok content =>
      .ok (get_file_category file_path) content.length
        (codec.compress (resolve_file_level compression_level file_path) content).length
  | _ => .err

/-- The stats dict of `compress_directory_multithreaded` (compressor.py lines
450-463): the create-archive keys plus `failed_files` and `processing_time`. -/
structure MtStats where
  total_files : Nat
  failed_files : Nat
  total_original_size : Nat
  total_compressed_size : Nat
  categories : Categories
  processing_time : Nat
  deriving DecidableEq

/-- One completed unit's update of the shared stats, performed atomically: the
success counters under `stats_lock` (lines 506-512), the failure counter under
`error_log_lock` (lines 526-527). -/
def mtStep (s : MtStats) (u : UnitResult) : MtStats :=
  match u with
  | .ok category osz csz =>
      { s with total_files := s.total_files + 1,
               total_original_size := s.total_original_size + osz,
               total_compressed_size := s.total_compressed_size + csz,
               categories := s.categories.update category osz csz }
  | .err => { s with failed_files := s.failed_files + 1 }

/-- `compress_directory_multithreaded` (compressor.py lines 415-672): every
discovered unit is processed exactly once; the workers' lock-protected updates apply
in some completion order, given here as `completionOrder`; `processing_time` is the
measured elapsed wall time and `num_threads` the pool width, neither of which the
counters depend on. -/
def compress_directory_multithreaded (codec : Codec) (input_dir : String)
    (_num_threads : Nat) (compression_level : Option Nat) (elapsed : Nat)
    (completionOrder : List SourceFile) : MtStats :=
  { (completionOrder.map (process_file codec input_dir compression_level)).foldl mtStep
      ⟨0, 0, 0, 0, Categories.init, 0⟩ with
    processing_time := elapsed }

/-- Componentwise sum of per-category counters (proof-side decomposition of the
in-place increments). -/
def CatStat.add (x y : CatStat) : CatStat :=
  ⟨x.count + y.count, x.original_size + y.original_size, x.compressed_size + y.compressed_size⟩

/-- Componentwise sum of category tables. -/
def Categories.add (x y : Categories) : Categories :=
  ⟨x.textur.add y.textur, x.audio.add y.audio, x.modell.add y.modell,
   x.script.add y.script, x.sonstige.add y.sonstige⟩

/-- A category update is the componentwise sum with the same update of the zero
table. -/
theorem Categories.update_eq_add (cs : Categories) (n : String) (o c : Nat) :
    cs.update n o c = cs.add (Categories.init.update n o c) := by
  unfold Categories.update Categories.add CatStat.add Categories.init
  split_ifs <;> (ext <;> dsimp only <;> omega)

/-- Componentwise sums commute in their second arguments. -/
theorem Categories.add_right_comm (cs d₁ d₂ : Categories) :
    (cs.add d₁).add d₂ = (cs.add d₂).add d₁ := by
  unfold Categories.add CatStat.add
  ext <;> dsimp only <;> omega

/-- Category updates commute with each other. -/
theorem Categories.update_comm (cs : Categories) (n₁ n₂ : String) (o₁ c₁ o₂ c₂ : Nat) :
    (cs.update n₁ o₁ c₁).update n₂ o₂ c₂ = (cs.update n₂ o₂ c₂).update n₁ o₁ c₁ := by
  rw [Categories.update_eq_add (cs.update n₁ o₁ c₁), Categories.update_eq_add (cs.update n₂ o₂ c₂),
    Categories.update_eq_add cs n₁, Categories.update_eq_add cs n₂, Categories.add_right_comm]

/-- Stats updates of two completed units commute. -/
theorem mtStep_comm (s : MtStats) (u v : UnitResult) :
    mtStep (mtStep s u) v = mtStep (mtStep s v) u := by
  cases u with
  | err =>
      cases v with
      | err => rfl
      | ok cat o c => rfl
  | ok cat o c =>
      cases v with
      | err => rfl
      | ok cat' o' c' =>
          simp only [mtStep, MtStats.mk.injEq]
          and_intros <;> first
            | rfl
            | trivial
            | omega
            | exact Categories.update_comm ..

/-- Folding the stats updates is invariant under permuting the completion order. -/
theorem foldl_mtStep_perm {l₁ l₂ : List UnitResult} (h : l₁.Perm l₂) :
    ∀ s : MtStats, l₁.foldl mtStep s = l₂.foldl mtStep s := by
  induction h with
  | nil => intro s; rfl
  | cons x _ ih => intro s; rw [List.foldl_cons, List.foldl_cons]; exact ih _
  | swap x y l => intro s; rw [List.foldl_cons, List.foldl_cons, List.foldl_cons,
      List.foldl_cons, mtStep_comm]
  | trans _ _ ih₁ ih₂ => intro s; exact (ih₁ s).trans (ih₂ s)

/-- Claim C6: for a fixed input tree, the final aggregated stats of
`compress_directory_multithreaded` — totals, failed count and all per-category sums —
are identical for any two worker counts and any two completion orders of the same
units: every counter update is applied atomically inside a critical section, so the
fold is order-independent. -/
theorem claim_c6 (codec : Codec) (dir : String) (lvl : Option Nat)
    (n₁ n₂ elapsed : Nat) (order₁ order₂ : List SourceFile)
    (h : order₁.Perm order₂) :
    compress_directory_multithreaded codec dir n₁ lvl elapsed order₁
      = compress_directory_multithreaded codec dir n₂ lvl elapsed order₂ := by
  unfold compress_directory_multithreaded
  rw [foldl_mtStep_perm (h.map (process_file codec dir lvl))]

/-- Witness for C6: a two-file tree aggregated with 1 worker in one order and with
8 workers in the swapped order gives the same stats. -/
theorem claim_c6_witness :
    compress_directory_multithreaded idCodec "src" 1 none 0
        [⟨"a.txt", .ok [1, 2]⟩, ⟨"b.png", .ok [3]⟩]
      = compress_directory_multithreaded idCodec "src" 8 none 0
        [⟨"b.png", .ok [3]⟩, ⟨"a.txt", .ok [1, 2]⟩] :=
  claim_c6 idCodec "src" none 1 8 0 _ _ (List.Perm.swap _ _ _)

/-! ## Manifest completeness of produced archives -/

/-- Whether a unit of work fails mid-stream (leaving a partial compressed output in
the scratch directory). -/
def isMidOutcome (f : SourceFile) : Bool :=
  match f.outcome with
  | .failMid _ => true
  | _ => false

/-- The manifest lists exactly the paths of the successful units, in walk order. -/
theorem create_files_paths (codec : Codec) (dir : String) (override : Option Nat)
    (tree : List SourceFile) :
    (tree.filterMap (metaOf codec dir override)).map (·.path)
      = (tree.filter isOkOutcome).map (·.relPath) := by
  induction tree with
  | nil => rfl
  | cons f t ih =>
      cases hf : f.outcome <;>
        simp [metaOf, isOkOutcome, List.filter_cons, hf, ih]

/-- When no unit fails mid-stream, the scratch directory holds exactly one `.zst`
file per successful unit, named after its relative path. -/
theorem create_temp_names (codec : Codec) (dir : String) (override : Option Nat)
    (tree : List SourceFile) (hmid : ∀ f ∈ tree, isMidOutcome f = false) :
    (tree.filterMap (tempOf codec dir override)).map (·.1)
      = (tree.filter isOkOutcome).map (fun f => f.relPath ++ ".zst") := by
  induction tree with
  | nil => rfl
  | cons f t ih =>
      have hf0 := hmid f (List.mem_cons_self f t)
      have ht : ∀ g ∈ t, isMidOutcome g = false :=
        fun g hg => hmid g (List.mem_cons_of_mem f hg)
      cases hf : f.outcome <;>
        simp_all [tempOf, isOkOutcome, isMidOutcome, List.filter_cons, hf]

/-- Every scratch-directory entry is named `<relative-path>.zst`. -/
theorem temp_names_zst (codec : Codec) (dir : String) (override : Option Nat)
    (tree : List SourceFile) :
    ∀ e ∈ tree.filterMap (tempOf codec dir override), ∃ s, e.1 = s ++ ".zst" := by
  intro e he
  rw [List.mem_filterMap] at he
  obtain ⟨f, _, hfe⟩ := he
  cases ho : f.outcome with
  | ok content =>
      simp only [tempOf, ho, Option.some.injEq] at hfe
      exact ⟨f.relPath, by rw [← hfe]⟩
  | failAtOpen => simp [tempOf, ho] at hfe
  | failMid w =>
      simp only [tempOf, ho, Option.some.injEq] at hfe
      exact ⟨f.relPath, by rw [← hfe]⟩

/-- The zip walk's skip test only skips the manifest file: every `.zst` scratch file
is packed. -/
theorem container_filter_keeps (temp : List (String × MemberData))
    (hz : ∀ e ∈ temp, ∃ s, e.1 = s ++ ".zst") (m : Metadata) :
    (temp ++ [("arcx_metadata.json", MemberData.meta m)]).filter
        (fun e => basenameStr e.1 != "arcx_metadata.json") = temp := by
  rw [List.filter_append]
  have h1 : temp.filter (fun e => basenameStr e.1 != "arcx_metadata.json") = temp := by
    rw [List.filter_eq_self]
    intro e he
    obtain ⟨s, hs⟩ := hz e he
    rw [hs]
    simp only [bne_iff_ne, ne_eq]
    exact basename_zst_ne_manifest s
  have hp : (basenameStr "arcx_metadata.json" != "arcx_metadata.json") = false := by decide
  have h2 : ([("arcx_metadata.json", MemberData.meta m)] :
      List (String × MemberData)).filter
        (fun e => basenameStr e.1 != "arcx_metadata.json") = [] := by
    simp [List.filter_cons, hp]
  rw [h1, h2, List.append_nil]

/-- The container is the manifest member followed by the scratch files, in order. -/
theorem create_container_eq (codec : Codec) (dir created : String) (override : Option Nat)
    (tree : List SourceFile) :
    (create_arcx_archive codec dir override created tree).container
      = ("arcx_metadata.json",
          MemberData.meta (create_arcx_archive codec dir override created tree).metadata)
        :: tree.filterMap (tempOf codec dir override) := by
  simp only [create_arcx_archive]
  rw [create_foldl_temp, List.nil_append,
    container_filter_keeps _ (temp_names_zst codec dir override tree)]

/-- The manifest's file list of a produced archive. -/
theorem create_metadata_files (codec : Codec) (dir created : String) (override : Option Nat)
    (tree : List SourceFile) :
    (create_arcx_archive codec dir override created tree).metadata.files
      = tree.filterMap (metaOf codec dir override) := by
  simp only [create_arcx_archive]
  rw [create_foldl_files, List.nil_append]

/-- The total file count of a produced archive's stats. -/
theorem create_stats_total_files (codec : Codec) (dir created : String) (override : Option Nat)
    (tree : List SourceFile) :
    (create_arcx_archive codec dir override created tree).stats.total_files
      = tree.countP isOkOutcome := by
  simp only [create_arcx_archive]
  rw [create_foldl_total_files]
  simp [CreateStats.init]

/-- In a duplicate-free list, the matching-element count is one. -/
theorem countP_eq_one_of_nodup {α : Type} [DecidableEq α] (l : List α) (hnd : l.Nodup)
    (a : α) (ha : a ∈ l) : l.countP (fun s => decide (s = a)) = 1 := by
  induction l with
  | nil => cases ha
  | cons x t ih =>
      rw [List.countP_cons]
      rcases List.mem_cons.mp ha with rfl | hat
      · have hnot : a ∉ t := (List.nodup_cons.mp hnd).1
        have hz : t.countP (fun s => decide (s = a)) = 0 := by
          rw [List.countP_eq_zero]
          intro b hb
          simp only [decide_eq_true_eq]
          intro hba
          exact hnot (hba ▸ hb)
        simp [hz]
      · have hx : x ≠ a := by
          intro hxa
          exact (List.nodup_cons.mp hnd).1 (hxa ▸ hat)
        rw [ih (List.nodup_cons.mp hnd).2 hat]
        simp [hx]

/-- Member-name counts in the scratch directory, transported to the successful
units' relative paths. -/
theorem temp_countP_names (codec : Codec) (dir : String) (override : Option Nat)
    (tree : List SourceFile) (hmid : ∀ f ∈ tree, isMidOutcome f = false) (tgt : String) :
    (tree.filterMap (tempOf codec dir override)).countP (fun e => decide (e.1 = tgt))
      = ((tree.filter isOkOutcome).map (·.relPath)).countP
          (fun s => decide (s ++ ".zst" = tgt)) := by
  induction tree with
  | nil => rfl
  | cons f t ih =>
      have hf0 := hmid f (List.mem_cons_self f t)
      have ht : ∀ g ∈ t, isMidOutcome g = false :=
        fun g hg => hmid g (List.mem_cons_of_mem f hg)
      cases hf : f.outcome <;>
        simp_all [tempOf, isOkOutcome, isMidOutcome, List.filter_cons, List.countP_cons, hf]

/-- Claim C5 (amended): provided every failed unit fails before its compressed output
is created and the walk yields distinct relative paths, then the number of manifest
`files` entries equals the number of non-manifest container members, every manifest
path has exactly one member named `<relative-path>.zst`, and the container holds
nothing besides the manifest and the declared files. -/
theorem claim_c5 (codec : Codec) (dir created : String) (override : Option Nat)
    (tree : List SourceFile)
    (hmid : tree.all (fun f => !isMidOutcome f) = true)
    (hnd : (tree.map (·.relPath)).Nodup) :
    (create_arcx_archive codec dir override created tree).metadata.files.length + 1
      = (create_arcx_archive codec dir override created tree).container.length ∧
    (∀ fm ∈ (create_arcx_archive codec dir override created tree).metadata.files,
      (create_arcx_archive codec dir override created tree).container.countP
        (fun e => e.1 = fm.path ++ ".zst") = 1) ∧
    (∀ e ∈ (create_arcx_archive codec dir override created tree).container,
      e.1 = "arcx_metadata.json" ∨
      ∃ fm ∈ (create_arcx_archive codec dir override created tree).metadata.files,
        e.1 = fm.path ++ ".zst") := by
  have hmid' : ∀ f ∈ tree, isMidOutcome f = false := by
    intro f hf
    have := List.all_eq_true.mp hmid f hf
    simpa using this
  have hcont := create_container_eq codec dir created override tree
  have hfiles := create_metadata_files codec dir created override tree
  have hnames := create_temp_names codec dir override tree hmid'
  have hpaths := create_files_paths codec dir override tree
  have hoknd : ((tree.filter isOkOutcome).map (·.relPath)).Nodup :=
    List.Nodup.sublist (List.Sublist.map _ (List.filter_sublist tree)) hnd
  have hlen1 : (tree.filterMap (metaOf codec dir override)).length
      = (tree.filter isOkOutcome).length := by
    have := congrArg List.length hpaths
    simpa using this
  have hlen2 : (tree.filterMap (tempOf codec dir override)).length
      = (tree.filter isOkOutcome).length := by
    have := congrArg List.length hnames
    simpa using this
  refine ⟨?_, ?_, ?_⟩
  · rw [hcont, hfiles]
    simp [hlen1, hlen2]
  · intro fm hfm
    rw [hfiles] at hfm
    rw [hcont]
    have hne : ¬ (("arcx_metadata.json" : String) = fm.path ++ ".zst") :=
      fun h => append_zst_ne_manifest fm.path h.symm
    have hcong : ((tree.filter isOkOutcome).map (·.relPath)).countP
        (fun s => decide (s ++ ".zst" = fm.path ++ ".zst"))
        = ((tree.filter isOkOutcome).map (·.relPath)).countP
            (fun s => decide (s = fm.path)) := by
      apply List.countP_congr
      intro s _
      simp only [decide_eq_true_eq]
      exact ⟨fun h => append_zst_inj h, fun h => by rw [h]⟩
    have hmem : fm.path ∈ (tree.filter isOkOutcome).map (·.relPath) := by
      have h0 : fm.path ∈ (tree.filterMap (metaOf codec dir override)).map (·.path) :=
        List.mem_map_of_mem _ hfm
      rwa [hpaths] at h0
    rw [List.countP_cons, temp_countP_names codec dir override tree hmid' (fm.path ++ ".zst"),
      hcong, countP_eq_one_of_nodup _ hoknd fm.path hmem]
    simp [hne]
  · intro e he
    rw [hcont] at he
    rcases List.mem_cons.mp he with rfl | he'
    · exact Or.inl rfl
    · right
      rw [List.mem_filterMap] at he'
      obtain ⟨f, hf, hfe⟩ := he'
      cases ho : f.outcome with
      | ok content =>
          refine ⟨⟨f.relPath, get_file_category (dir ++ "/" ++ f.relPath),
            resolve_file_level override (dir ++ "/" ++ f.relPath), content.length,
            (codec.compress (resolve_file_level override (dir ++ "/" ++ f.relPath))
              content).length⟩, ?_, ?_⟩
          · rw [hfiles, List.mem_filterMap]
            exact ⟨f, hf, by simp [metaOf, ho]⟩
          · simp only [tempOf, ho, Option.some.injEq] at hfe
            rw [← hfe]
      | failAtOpen => simp [tempOf, ho] at hfe
      | failMid w =>
          have := hmid' f hf
          simp [isMidOutcome, ho] at this

/-- Counterexample to C5 as stated: a unit that fails while streaming leaves a
partial `f.txt.zst` member in the container that no manifest entry declares, so the
manifest's `files` count (0) differs from the non-manifest member count (1). -/
theorem claim_c5_counterexample :
    ¬ ((create_arcx_archive idCodec "src" none "t"
          [⟨"f.txt", .failMid [0]⟩]).metadata.files.length + 1
        = (create_arcx_archive idCodec "src" none "t"
            [⟨"f.txt", .failMid [0]⟩]).container.length) ∧
    (create_arcx_archive idCodec "src" none "t"
        [⟨"f.txt", .failMid [0]⟩]).container.map (·.1)
      = ["arcx_metadata.json", "f.txt.zst"] := by
  exact ⟨by decide, by decide⟩

/-- Witness for the amended C5 on a concrete two-file tree. -/
theorem claim_c5_witness :
    (create_arcx_archive idCodec "src" none "t"
        [⟨"a.txt", .ok [1, 2]⟩, ⟨"b.png", .ok [3]⟩]).metadata.files.length + 1
      = (create_arcx_archive idCodec "src" none "t"
          [⟨"a.txt", .ok [1, 2]⟩, ⟨"b.png", .ok [3]⟩]).container.length :=
  (claim_c5 idCodec "src" "t" none [⟨"a.txt", .ok [1, 2]⟩, ⟨"b.png", .ok [3]⟩]
    (by decide) (by decide)).1

/-! ## Failure isolation -/

/-- The multithreaded fold counts failures and successes of the submitted units. -/
theorem mt_foldl_counts (codec : Codec) (dir : String) (lvl : Option Nat)
    (tree : List SourceFile) (s : MtStats) :
    ((tree.map (process_file codec dir lvl)).foldl mtStep s).failed_files
        = s.failed_files + tree.countP (fun f => !isOkOutcome f) ∧
    ((tree.map (process_file codec dir lvl)).foldl mtStep s).total_files
        = s.total_files + tree.countP isOkOutcome := by
  induction tree generalizing s with
  | nil => simp
  | cons f t ih =>
      rw [List.map_cons, List.foldl_cons]
      obtain ⟨ih1, ih2⟩ := ih (mtStep s (process_file codec dir lvl f))
      constructor
      · rw [ih1]
        cases hf : f.outcome <;>
          simp [process_file, mtStep, isOkOutcome, List.countP_cons, hf] <;> omega
      · rw [ih2]
        cases hf : f.outcome <;>
          simp [process_file, mtStep, isOkOutcome, List.countP_cons, hf] <;> omega

/-- The multithreaded run's failure count is the number of failing units. -/
theorem mt_failed_eq (codec : Codec) (dir : String) (nthreads : Nat) (lvl : Option Nat)
    (elapsed : Nat) (tree : List SourceFile) :
    (compress_directory_multithreaded codec dir nthreads lvl elapsed tree).failed_files
      = tree.countP (fun f => !isOkOutcome f) := by
  simp only [compress_directory_multithreaded]
  rw [(mt_foldl_counts codec dir lvl tree ⟨0, 0, 0, 0, Categories.init, 0⟩).1]
  simp

/-- The multithreaded run's total file count is the number of succeeding units. -/
theorem mt_total_eq (codec : Codec) (dir : String) (nthreads : Nat) (lvl : Option Nat)
    (elapsed : Nat) (tree : List SourceFile) :
    (compress_directory_multithreaded codec dir nthreads lvl elapsed tree).total_files
      = tree.countP isOkOutcome := by
  simp only [compress_directory_multithreaded]
  rw [(mt_foldl_counts codec dir lvl tree ⟨0, 0, 0, 0, Categories.init, 0⟩).2]
  simp

/-- Claim C2 (amended): with exactly one of K files unreadable, `create_arcx_archive`
completes instead of aborting: the failing unit is caught at its unit boundary,
sibling units are unaffected and all archived, `total_files = K-1`, and the container
holds exactly K-1 compressed members plus the manifest.  However its returned stats
dict carries no `failed_files` key at all; `failed_files == 1` holds for the stats of
`compress_directory_multithreaded` on the same tree. -/
theorem claim_c2 (codec : Codec) (dir created : String) (override : Option Nat)
    (pre post : List SourceFile) (bad : SourceFile)
    (hbad : bad.outcome = .failAtOpen)
    (hok : (pre ++ post).all isOkOutcome = true)
    (nthreads elapsed : Nat) :
    (create_arcx_archive codec dir override created (pre ++ bad :: post)).stats.total_files
      = (pre ++ bad :: post).length - 1 ∧
    (create_arcx_archive codec dir override created
        (pre ++ bad :: post)).metadata.files.length
      = (pre ++ bad :: post).length - 1 ∧
    (create_arcx_archive codec dir override created (pre ++ bad :: post)).container.length
      = (pre ++ bad :: post).length ∧
    (create_arcx_archive codec dir override created (pre ++ bad :: post)).stats.entry
      "failed_files" = none ∧
    (∀ f ∈ pre ++ post, f.relPath ∈
      (create_arcx_archive codec dir override created
        (pre ++ bad :: post)).metadata.files.map (·.path)) ∧
    (compress_directory_multithreaded codec dir nthreads override elapsed
        (pre ++ bad :: post)).failed_files = 1 ∧
    (compress_directory_multithreaded codec dir nthreads override elapsed
        (pre ++ bad :: post)).total_files = (pre ++ bad :: post).length - 1 := by
  have hokP : ∀ f ∈ pre ++ post, isOkOutcome f = true := by
    intro f hf
    simpa using List.all_eq_true.mp hok f hf
  have hmid : ∀ f ∈ pre ++ bad :: post, isMidOutcome f = false := by
    intro f hf
    rcases List.mem_append.mp hf with h | h
    · have := hokP f (List.mem_append.mpr (Or.inl h))
      cases ho : f.outcome <;> simp_all [isOkOutcome, isMidOutcome]
    · rcases List.mem_cons.mp h with rfl | h'
      · simp [isMidOutcome, hbad]
      · have := hokP f (List.mem_append.mpr (Or.inr h'))
        cases ho : f.outcome <;> simp_all [isOkOutcome, isMidOutcome]
  have hcount : (pre ++ bad :: post).countP isOkOutcome = pre.length + post.length := by
    rw [List.countP_append, List.countP_cons]
    have h1 : pre.countP isOkOutcome = pre.length :=
      List.countP_eq_length.mpr (fun f hf => hokP f (List.mem_append.mpr (Or.inl hf)))
    have h2 : post.countP isOkOutcome = post.length :=
      List.countP_eq_length.mpr (fun f hf => hokP f (List.mem_append.mpr (Or.inr hf)))
    have hb : isOkOutcome bad = false := by simp [isOkOutcome, hbad]
    rw [h1, h2, hb]
    simp
  have hcountErr : (pre ++ bad :: post).countP (fun f => !isOkOutcome f) = 1 := by
    rw [List.countP_append, List.countP_cons]
    have h1 : pre.countP (fun f => !isOkOutcome f) = 0 := by
      rw [List.countP_eq_zero]
      intro f hf
      simp [hokP f (List.mem_append.mpr (Or.inl hf))]
    have h2 : post.countP (fun f => !isOkOutcome f) = 0 := by
      rw [List.countP_eq_zero]
      intro f hf
      simp [hokP f (List.mem_append.mpr (Or.inr hf))]
    have hb : isOkOutcome bad = false := by simp [isOkOutcome, hbad]
    rw [h1, h2]
    simp [hb]
  have hlentree : (pre ++ bad :: post).length = pre.length + post.length + 1 := by
    simp [List.length_append]
    omega
  refine ⟨?_, ?_, ?_, ?_, ?_, ?_, ?_⟩
  · rw [create_stats_total_files, hcount, hlentree]
    omega
  · rw [create_metadata_files]
    have hl := congrArg List.length
      (create_files_paths codec dir override (pre ++ bad :: post))
    simp only [List.length_map] at hl
    rw [hl, ← List.countP_eq_length_filter, hcount, hlentree]
    omega
  · rw [create_container_eq]
    have hl := congrArg List.length
      (create_temp_names codec dir override (pre ++ bad :: post) hmid)
    simp only [List.length_map] at hl
    simp only [List.length_cons]
    rw [hl, ← List.countP_eq_length_filter, hcount, hlentree]
  · rfl
  · intro f hf
    have hmemtree : f ∈ pre ++ bad :: post := by
      rcases List.mem_append.mp hf with h | h
      · exact List.mem_append.mpr (Or.inl h)
      · exact List.mem_append.mpr (Or.inr (List.mem_cons_of_mem bad h))
    rw [create_metadata_files, create_files_paths]
    exact List.mem_map_of_mem _ (List.mem_filter.mpr ⟨hmemtree, hokP f hf⟩)
  · rw [mt_failed_eq, hcountErr]
  · rw [mt_total_eq, hcount, hlentree]
    omega

/-- Counterexample to C2 as stated: on a two-file tree with one unreadable file, the
stats dict returned by `create_arcx_archive` has no `failed_files` entry — indexing it
with that key raises `KeyError` rather than giving 1. -/
theorem claim_c2_counterexample :
    (create_arcx_archive idCodec "src" none "t"
        [⟨"a.txt", .ok [1]⟩, ⟨"b.txt", .failAtOpen⟩]).stats.entry "failed_files"
      ≠ some (StatsVal.num 1) := by
  decide

/-- Witness for the amended C2 on a concrete two-file tree. -/
theorem claim_c2_witness :
    (create_arcx_archive idCodec "src" none "t"
        ([⟨"a.txt", .ok [1]⟩] ++ ⟨"b.txt", .failAtOpen⟩ :: [])).stats.total_files = 1 ∧
    (compress_directory_multithreaded idCodec "src" 4 none 0
        ([⟨"a.txt", .ok [1]⟩] ++ ⟨"b.txt", .failAtOpen⟩ :: [])).failed_files = 1 := by
  have h := claim_c2 idCodec "src" "t" none [⟨"a.txt", .ok [1]⟩] []
    ⟨"b.txt", .failAtOpen⟩ rfl (by decide) 4 0
  exact ⟨h.1, h.2.2.2.2.2.1⟩

/-! ## Extraction engines -/

/-- Fatal extraction failures: missing manifest member (`KeyError` from
`zipf.extract`), unreadable manifest (`json.load` failure), or — in compressor.py's
extractor only, which has no per-file `try` — a member that cannot be opened or
decompressed. -/
inductive ExtractFatal where
  | manifestMissing
  | manifestUnreadable
  | badMember (path : String)
  deriving DecidableEq

/-- Reading the manifest member first (extractor.py lines 79-93, compressor.py lines
712-723): a missing member is fatal, an unparseable one is fatal.  The format
version is only logged via `metadata.get('version', ...)` — neither extractor
validates it. -/
def readManifest (ar : List (String × MemberData)) : Except ExtractFatal Metadata :=
  match zipLookup ar "arcx_metadata.json" with
  | none => .error .manifestMissing
  | some (.blob _) => .error .manifestUnreadable
  | some (.meta m) => .ok m

/-- State of compressor.py's extraction loop: the create-shaped stats dict and the
reconstructed output tree in write order. -/
structure CompExtractState where
  stats : CreateStats
  outputs : List (String × List Nat)
  deriving DecidableEq

/-- One iteration of compressor.py's extraction loop (lines 739-783): open the
member (missing or undecompressable aborts the whole run — this loop has no per-file
`try`), decompress to the output path, then update the stats with the manifest's
recorded sizes; a category outside the five keys is counted under `Sonstige` via the
membership test at line 766.  The decompressed byte count is never compared with
`original_size`. -/
def comp_extract_step (codec : Codec) (temp : List (String × MemberData))
    (st : CompExtractState) (fi : FileMeta) : Except ExtractFatal CompExtractState :=
  match zipLookup temp (fi.path ++ ".zst") with
  | none => .error (.badMember fi.path)
  | some (.meta _) => .error (.badMember fi.path)
  | some (.blob b) =>
      .ok { stats := st.stats.bump
              (if Categories.known fi.category then fi.category else "Sonstige")
              fi.original_size fi.compressed_size,
            outputs := st.outputs ++ [(fi.path, codec.decompress b)] }

/-- The body of compressor.py's `extract_arcx_archive`. -/
def comp_extract_body (codec : Codec) (ar : List (String × MemberData)) :
    Except ExtractFatal CompExtractState :=
  match readManifest ar with
  | .error e => .error e
  | .ok m => m.files.foldlM (comp_extract_step codec ar) ⟨CreateStats.init, []⟩

/-- Result of an extraction run: the body's outcome and whether the `finally`
removed the scratch directory. -/
structure ScopedRun (α : Type) where
  result : Except ExtractFatal α
  tempRemoved : Bool

/-- `try ... finally: shutil.rmtree(temp_dir, ignore_errors=True)`: the cleanup runs
on the success path and on the fatal-exception path alike. -/
def withTempCleanup {α : Type} (body : Except ExtractFatal α) : ScopedRun α :=
  match body with
  | .ok a => { result := .ok a, tempRemoved := true }
  | .error e => { result := .error e, tempRemoved := true }

/-- The cleanup wrapper is transparent for the run's outcome. -/
theorem withTempCleanup_result {α : Type} (b : Except ExtractFatal α) :
    (withTempCleanup b).result = b := by
  cases b <;> rfl

/-- `extract_arcx_archive` of compressor.py (lines 675-822). -/
def extract_arcx_archive_compressor (codec : Codec) (ar : List (String × MemberData)) :
    ScopedRun CompExtractState :=
  withTempCleanup (comp_extract_body codec ar)

/-- Per-category counters of extractor.py's stats (`{'count': 0, 'size': 0}`,
extractor.py lines 54-60). -/
@[ext] structure ExtCatStat where
  count : Nat
  size : Nat
  deriving DecidableEq

/-- The `stats['categories']` dict of extractor.py: the same five fixed keys. -/
@[ext] structure ExtCategories where
  textur : ExtCatStat
  audio : ExtCatStat
  modell : ExtCatStat
  script : ExtCatStat
  sonstige : ExtCatStat
  deriving DecidableEq

/-- The all-zero table extractor.py starts from. -/
def ExtCategories.init : ExtCategories :=
  ⟨⟨0, 0⟩, ⟨0, 0⟩, ⟨0, 0⟩, ⟨0, 0⟩, ⟨0, 0⟩⟩

/-- `stats['categories'][category]` as extractor.py indexes it directly (line 125):
`none` is the `KeyError` raised for a name outside the five keys. -/
def ExtCategories.lookup (cs : ExtCategories) (name : String) : Option ExtCatStat :=
  if name = "Textur" then some cs.textur
  else if name = "Audio" then some cs.audio
  else if name = "Modell" then some cs.modell
  else if name = "Script" then some cs.script
  else if name = "Sonstige" then some cs.sonstige
  else none

/-- The successful category update at extractor.py lines 125-126. -/
def ExtCategories.update (cs : ExtCategories) (name : String) (dSize : Nat) :
    ExtCategories :=
  if name = "Textur" then
    { cs with textur := ⟨cs.textur.count + 1, cs.textur.size + dSize⟩ }
  else if name = "Audio" then
    { cs with audio := ⟨cs.audio.count + 1, cs.audio.size + dSize⟩ }
  else if name = "Modell" then
    { cs with modell := ⟨cs.modell.count + 1, cs.modell.size + dSize⟩ }
  else if name = "Script" then
    { cs with script := ⟨cs.script.count + 1, cs.script.size + dSize⟩ }
  else if name = "Sonstige" then
    { cs with sonstige := ⟨cs.sonstige.count + 1, cs.sonstige.size + dSize⟩ }
  else cs

/-- The state of extractor.py's extraction loop: its stats dict (`total_files`,
`total_size`, `categories`, extractor.py lines 51-61), the reconstructed output tree
in write order, and the per-file errors logged by the `except` at line 135. -/
structure ExtState where
  total_files : Nat
  total_size : Nat
  categories : ExtCategories
  outputs : List (String × List Nat)
  errors : List String
  deriving DecidableEq

/-- Zero-initialised extractor.py state. -/
def ExtState.init : ExtState :=
  { total_files := 0, total_size := 0, categories := ExtCategories.init,
    outputs := [], errors := [] }

/-- One iteration of extractor.py's extraction loop (lines 99-136), whose body runs
under a per-file `try`: a missing (or undecompressable) member raises at `open` and
is caught with nothing written; otherwise the file is decompressed and written
first, then `total_files` and `total_size` are incremented (lines 123-124), and then
the direct category indexing at line 125 runs — for a category outside the five keys
it raises `KeyError`, which the `except` catches only after the file was written and
the two totals were already incremented; those mutations persist.  No size check
against the manifest is ever made. -/
def extractor_step (codec : Codec) (temp : List (String × MemberData))
    (st : ExtState) (fi : FileMeta) : ExtState :=
  match zipLookup temp (fi.path ++ ".zst") with
  | none => { st with errors := st.errors ++ [fi.path] }
  | some (.meta _) => { st with errors := st.errors ++ [fi.path] }
  | some (.blob b) =>
      let out := codec.decompress b
      let file_size := out.length
      let st1 : ExtState :=
        { st with outputs := st.outputs ++ [(fi.path, out)],
                  total_files := st.total_files + 1,
                  total_size := st.total_size + file_size }
      match st1.categories.lookup fi.category with
      | some _ =>
          { st1 with categories := st1.categories.update fi.category file_size }
      | none => { st1 with errors := st1.errors ++ [fi.path] }

/-- `extract_arcx_archive` of extractor.py (lines 29-158). -/
def extract_arcx_archive_extractor (codec : Codec) (ar : List (String × MemberData)) :
    ScopedRun ExtState :=
  withTempCleanup
    (match readManifest ar with
     | .error e => .error e
     | .ok m => .ok (m.files.foldl (extractor_step codec ar) ExtState.init))

/-- Claim C9: every run of the archive builder and of both extraction engines
removes its scratch directory before returning — on success, after per-file errors,
and on a fatal exception alike (the `finally` blocks at compressor.py lines 410-412
and 820-822 and extractor.py lines 156-158). -/
theorem claim_c9 (codec : Codec) (dir created : String) (override : Option Nat)
    (tree : List SourceFile) (ar₁ ar₂ : List (String × MemberData)) :
    (create_arcx_archive codec dir override created tree).tempRemoved = true ∧
    (extract_arcx_archive_compressor codec ar₁).tempRemoved = true ∧
    (extract_arcx_archive_extractor codec ar₂).tempRemoved = true := by
  refine ⟨rfl, ?_, ?_⟩
  · unfold extract_arcx_archive_compressor withTempCleanup
    cases comp_extract_body codec ar₁ <;> rfl
  · unfold extract_arcx_archive_extractor withTempCleanup
    cases readManifest ar₂ <;> rfl

/-! ## The manifest member never shadows a compressed member -/

/-- Looking up a `.zst` member skips the manifest member at the head. -/
theorem zipLookup_manifest_cons (d : MemberData) (t : List (String × MemberData))
    (s : String) :
    zipLookup (("arcx_metadata.json", d) :: t) (s ++ ".zst")
      = zipLookup t (s ++ ".zst") := by
  simp only [zipLookup]
  rw [if_neg]
  exact fun h => append_zst_ne_manifest s h.symm

/-- extractor.py's per-file work only sees the non-manifest members, so it cannot
depend on the manifest member's payload. -/
theorem extractor_step_head_irrel (codec : Codec) (d₁ d₂ : MemberData)
    (members : List (String × MemberData)) (st : ExtState) (fi : FileMeta) :
    extractor_step codec (("arcx_metadata.json", d₁) :: members) st fi
      = extractor_step codec (("arcx_metadata.json", d₂) :: members) st fi := by
  unfold extractor_step
  rw [zipLookup_manifest_cons, zipLookup_manifest_cons]

/-- compressor.py's per-file extraction work likewise only sees the non-manifest
members. -/
theorem comp_step_head_irrel (codec : Codec) (d₁ d₂ : MemberData)
    (members : List (String × MemberData)) (st : CompExtractState) (fi : FileMeta) :
    comp_extract_step codec (("arcx_metadata.json", d₁) :: members) st fi
      = comp_extract_step codec (("arcx_metadata.json", d₂) :: members) st fi := by
  unfold comp_extract_step
  rw [zipLookup_manifest_cons, zipLookup_manifest_cons]

/-- Folds of pointwise-equal step functions agree. -/
theorem foldl_congr_fun {α β : Type} (f g : α → β → α) (l : List β)
    (h : ∀ s b, f s b = g s b) : ∀ s, l.foldl f s = l.foldl g s := by
  induction l with
  | nil => intro s; rfl
  | cons b t ih =>
      intro s
      rw [List.foldl_cons, List.foldl_cons, h]
      exact ih _

/-- Monadic folds of pointwise-equal step functions agree. -/
theorem foldlM_congr_fun {α β : Type} (f g : α → β → Except ExtractFatal α) (l : List β)
    (h : ∀ s b, f s b = g s b) : ∀ s, l.foldlM f s = l.foldlM g s := by
  induction l with
  | nil => intro s; rfl
  | cons b t ih =>
      intro s
      rw [List.foldlM_cons, List.foldlM_cons, h]
      exact congrArg (Bind.bind (g s b)) (funext fun s' => ih s')

/-- extractor.py's run on an archive whose first member is a parsed manifest. -/
theorem extractor_run_meta_head (codec : Codec) (X : Metadata)
    (members : List (String × MemberData)) :
    (extract_arcx_archive_extractor codec
        (("arcx_metadata.json", MemberData.meta X) :: members)).result
      = .ok (X.files.foldl
          (extractor_step codec (("arcx_metadata.json", MemberData.meta X) :: members))
          ExtState.init) := rfl

/-- compressor.py's extraction run on an archive whose first member is a parsed
manifest. -/
theorem comp_run_meta_head (codec : Codec) (X : Metadata)
    (members : List (String × MemberData)) :
    (extract_arcx_archive_compressor codec
        (("arcx_metadata.json", MemberData.meta X) :: members)).result
      = X.files.foldlM
          (comp_extract_step codec (("arcx_metadata.json", MemberData.meta X) :: members))
          ⟨CreateStats.init, []⟩ := by
  rw [extract_arcx_archive_compressor, withTempCleanup_result]
  rfl

/-- Claim C3 (amended): both extraction engines read the manifest member before any
file work and abort fatally when it is missing or unreadable, before touching any
unit; the manifest's format version however is never validated — it is only logged —
so the run's outcome is identical for any two version strings. -/
theorem claim_c3 (codec : Codec) (ar members : List (String × MemberData))
    (m : Metadata) (v₁ v₂ : String) (b : List Nat) :
    (zipLookup ar "arcx_metadata.json" = none →
      (extract_arcx_archive_extractor codec ar).result
          = .error .manifestMissing ∧
      (extract_arcx_archive_compressor codec ar).result
          = .error .manifestMissing) ∧
    (zipLookup ar "arcx_metadata.json" = some (.blob b) →
      (extract_arcx_archive_extractor codec ar).result
          = .error .manifestUnreadable ∧
      (extract_arcx_archive_compressor codec ar).result
          = .error .manifestUnreadable) ∧
    (extract_arcx_archive_extractor codec
        (("arcx_metadata.json", .meta { m with version := v₁ }) :: members)).result
      = (extract_arcx_archive_extractor codec
          (("arcx_metadata.json", .meta { m with version := v₂ }) :: members)).result ∧
    (extract_arcx_archive_compressor codec
        (("arcx_metadata.json", .meta { m with version := v₁ }) :: members)).result
      = (extract_arcx_archive_compressor codec
          (("arcx_metadata.json", .meta { m with version := v₂ }) :: members)).result := by
  refine ⟨?_, ?_, ?_, ?_⟩
  · intro h
    constructor
    · rw [extract_arcx_archive_extractor, withTempCleanup_result, readManifest, h]
    · rw [extract_arcx_archive_compressor, withTempCleanup_result, comp_extract_body,
        readManifest, h]
  · intro h
    constructor
    · rw [extract_arcx_archive_extractor, withTempCleanup_result, readManifest, h]
    · rw [extract_arcx_archive_compressor, withTempCleanup_result, comp_extract_body,
        readManifest, h]
  · rw [extractor_run_meta_head, extractor_run_meta_head]
    exact congrArg Except.ok
      (foldl_congr_fun _ _ m.files
        (fun st fi => extractor_step_head_irrel codec _ _ members st fi) ExtState.init)
  · rw [comp_run_meta_head, comp_run_meta_head]
    exact foldlM_congr_fun _ _ m.files
      (fun st fi => comp_step_head_irrel codec _ _ members st fi) ⟨CreateStats.init, []⟩

/-- Equality of run outcomes is decidable (needed to evaluate runs on concrete
archives). -/
instance instDecEqExcept {ε α : Type} [DecidableEq ε] [DecidableEq α] :
    DecidableEq (Except ε α) := fun a b =>
  match a, b with
  | .ok x, .ok y => decidable_of_iff (x = y) (by simp)
  | .error x, .error y => decidable_of_iff (x = y) (by simp)
  | .ok _, .error _ => isFalse (fun h => Except.noConfusion h)
  | .error _, .ok _ => isFalse (fun h => Except.noConfusion h)

/-- Counterexample to C3 as stated: an archive whose manifest carries the
unrecognized format version `"99.0"` is extracted to completion with one file and no
failure — no format-mismatch error exists in the code. -/
theorem claim_c3_counterexample :
    ((extract_arcx_archive_extractor idCodec
        [("arcx_metadata.json", .meta ⟨"99.0", "t", "manual", some 3,
            [⟨"a.bin", "Sonstige", 3, 1, 1⟩]⟩),
         ("a.bin.zst", .blob [7])]).result.map (fun s => s.total_files))
      = Except.ok 1 := by
  decide

/-- Witness for the amended C3: a missing manifest aborts, and two different
version strings extract identically. -/
theorem claim_c3_witness :
    (extract_arcx_archive_extractor idCodec []).result
        = .error .manifestMissing ∧
    (extract_arcx_archive_extractor idCodec
        [("arcx_metadata.json", .meta ⟨"1.0", "t", "manual", none, []⟩)]).result
      = (extract_arcx_archive_extractor idCodec
          [("arcx_metadata.json", .meta ⟨"2.0", "t", "manual", none, []⟩)]).result := by
  have h := claim_c3 idCodec [] [] ⟨"1.0", "t", "manual", none, []⟩ "1.0" "2.0" [0]
  exact ⟨(h.1 rfl).1, h.2.2.1⟩

/-! ## No integrity verification during extraction -/

/-- extractor.py's loop never reads the manifest's recorded sizes: folding over
size-rewritten manifest entries gives the identical state. -/
theorem extractor_foldl_size_irrel (codec : Codec) (d₁ d₂ : MemberData)
    (members : List (String × MemberData)) (g h : FileMeta → Nat) :
    ∀ (files : List FileMeta) (st : ExtState),
      (files.map (fun fi =>
          { fi with original_size := g fi, compressed_size := h fi })).foldl
        (extractor_step codec (("arcx_metadata.json", d₁) :: members)) st
      = files.foldl
          (extractor_step codec (("arcx_metadata.json", d₂) :: members)) st := by
  intro files
  induction files with
  | nil => intro st; rfl
  | cons fi t ih =>
      intro st
      rw [List.map_cons, List.foldl_cons, List.foldl_cons]
      have hone : extractor_step codec (("arcx_metadata.json", d₁) :: members) st
          { fi with original_size := g fi, compressed_size := h fi }
          = extractor_step codec (("arcx_metadata.json", d₂) :: members) st fi := by
        unfold extractor_step
        rw [zipLookup_manifest_cons, zipLookup_manifest_cons]
      rw [hone, ih]

/-- A manifest with every recorded size rewritten (the sizes a corrupted or
mismatched archive would carry). -/
def resizeFiles (g h : FileMeta → Nat) (m : Metadata) : Metadata :=
  { m with
      files := m.files.map (fun fi =>
        { fi with original_size := g fi, compressed_size := h fi }) }

/-- Claim C4 (amended): the extraction engine performs no decompressed-size
verification at all.  extractor.py's whole run is independent of every
`original_size` and `compressed_size` recorded in the manifest: rewriting them
arbitrarily changes neither the outputs, nor the stats, nor the error list, so a
mismatch between the decompressed byte count and the recorded size is neither
detected nor recorded and never interrupts the remaining files. -/
theorem claim_c4 (codec : Codec) (m : Metadata)
    (members : List (String × MemberData)) (g h : FileMeta → Nat) :
    (extract_arcx_archive_extractor codec
        (("arcx_metadata.json", MemberData.meta (resizeFiles g h m)) :: members)).result
      = (extract_arcx_archive_extractor codec
          (("arcx_metadata.json", MemberData.meta m) :: members)).result := by
  rw [extractor_run_meta_head, extractor_run_meta_head]
  refine congrArg Except.ok ?_
  simp only [resizeFiles]
  exact (foldl_congr_fun _
      (extractor_step codec (("arcx_metadata.json", MemberData.meta m) :: members))
      (m.files.map (fun fi =>
        { fi with original_size := g fi, compressed_size := h fi }))
      (fun st fi => extractor_step_head_irrel codec _ _ members st fi)
      ExtState.init).trans
    (extractor_foldl_size_irrel codec (MemberData.meta m) (MemberData.meta m)
      members g h m.files ExtState.init)

/-- Counterexample to C4 as stated: a member decompressing to 1 byte against a
recorded `original_size` of 999 is extracted with no error recorded, the file
written, and the file counted — no size check exists in either extractor. -/
theorem claim_c4_counterexample :
    ((extract_arcx_archive_extractor idCodec
        [("arcx_metadata.json", .meta ⟨"1.0", "t", "manual", some 3,
            [⟨"a.bin", "Sonstige", 3, 999, 1⟩]⟩),
         ("a.bin.zst", .blob [7])]).result.map
          (fun s => (s.errors, s.outputs, s.total_files)))
      = Except.ok ([], [("a.bin", [7])], 1) := by
  decide

/-! ## Divergence of the two extraction implementations on unknown categories -/

/-- Claim C10 (amended): for a manifest entry whose category is outside the five
known names, compressor.py's extractor counts the file under the fallback
`Sonstige` and completes, whereas extractor.py's direct category indexing raises —
but only after `total_files` and `total_size` were already incremented, so the file
is written, partially counted, and logged as an error while no category counter
moves.  The two implementations therefore disagree on the category stats of such an
archive. -/
theorem claim_c10 (codec : Codec) (path cat created : String) (lvl osz csz : Nat)
    (b : List Nat) (hcat : Categories.known cat = false) :
    (extract_arcx_archive_compressor codec
        [("arcx_metadata.json", .meta ⟨"1.0", created, "manual", some lvl,
            [⟨path, cat, lvl, osz, csz⟩]⟩), (path ++ ".zst", .blob b)]).result
      = Except.ok ⟨⟨1, osz, csz, Categories.init.update "Sonstige" osz csz⟩,
          [(path, codec.decompress b)]⟩ ∧
    (extract_arcx_archive_extractor codec
        [("arcx_metadata.json", .meta ⟨"1.0", created, "manual", some lvl,
            [⟨path, cat, lvl, osz, csz⟩]⟩), (path ++ ".zst", .blob b)]).result
      = Except.ok ⟨1, (codec.decompress b).length, ExtCategories.init,
          [(path, codec.decompress b)], [path]⟩ := by
  have hne1 : ¬ (("arcx_metadata.json" : String) = path ++ ".zst") :=
    fun h => append_zst_ne_manifest path h.symm
  have h5 : (((cat ≠ "Textur" ∧ cat ≠ "Audio") ∧ cat ≠ "Modell") ∧ cat ≠ "Script") ∧
      cat ≠ "Sonstige" := by
    simpa [Categories.known] using hcat
  obtain ⟨⟨⟨⟨e1, e2⟩, e3⟩, e4⟩, e5⟩ := h5
  constructor
  · rw [comp_run_meta_head]
    simp [comp_extract_step, zipLookup, hne1, hcat, CreateStats.bump, CreateStats.init]
  · rw [extractor_run_meta_head]
    simp [extractor_step, zipLookup, hne1, ExtCategories.lookup, e1, e2, e3, e4, e5,
      ExtState.init]

/-- Counterexample to C10 as stated: for the unknown category `"Unbekannt"`,
extractor.py records the file as an error but still counts it — `total_files` is
already 1 when the category lookup raises, so the file is not "recorded as an error
instead of being counted". -/
theorem claim_c10_counterexample :
    ((extract_arcx_archive_extractor idCodec
        [("arcx_metadata.json", .meta ⟨"1.0", "t", "manual", some 3,
            [⟨"x.bin", "Unbekannt", 3, 1, 1⟩]⟩),
         ("x.bin.zst", .blob [5])]).result.map
          (fun s => (s.total_files, s.errors)))
      = Except.ok (1, ["x.bin"]) := by
  decide

/-- Witness for the amended C10 at the concrete category `"Unbekannt"`: the two
implementations produce different category stats on the same archive. -/
theorem claim_c10_witness :
    (extract_arcx_archive_compressor idCodec
        [("arcx_metadata.json", .meta ⟨"1.0", "t", "manual", some 3,
            [⟨"x.bin", "Unbekannt", 3, 1, 1⟩]⟩), ("x.bin" ++ ".zst", .blob [5])]).result
      = Except.ok ⟨⟨1, 1, 1, Categories.init.update "Sonstige" 1 1⟩,
          [("x.bin", [5])]⟩ ∧
    (extract_arcx_archive_extractor idCodec
        [("arcx_metadata.json", .meta ⟨"1.0", "t", "manual", some 3,
            [⟨"x.bin", "Unbekannt", 3, 1, 1⟩]⟩), ("x.bin" ++ ".zst", .blob [5])]).result
      = Except.ok ⟨1, 1, ExtCategories.init, [("x.bin", [5])], ["x.bin"]⟩ := by
  have h := claim_c10 idCodec "x.bin" "Unbekannt" "t" 3 1 1 [5] (by decide)
  exact ⟨h.1, h.2⟩

/-! ## End-to-end round trip -/

/-- The blob stored under a member name (the bytes extraction will decompress);
`[]` when the member is missing or is the manifest. -/
def memberBlob (ar : List (String × MemberData)) (name : String) : List Nat :=
  match zipLookup ar name with
  | some (.blob b) => b
  | _ => []

/-- With distinct relative paths, a successful unit's member is found in the
scratch directory and holds exactly its compressed bytes. -/
theorem zipLookup_temp (codec : Codec) (dir : String) (override : Option Nat)
    (tree : List SourceFile) (hnd : (tree.map (·.relPath)).Nodup)
    (f : SourceFile) (hf : f ∈ tree) (c : List Nat) (hc : f.outcome = .ok c) :
    zipLookup (tree.filterMap (tempOf codec dir override)) (f.relPath ++ ".zst")
      = some (.blob (codec.compress
          (resolve_file_level override (dir ++ "/" ++ f.relPath)) c)) := by
  induction tree with
  | nil => cases hf
  | cons x t ih =>
      have hnd2 : (∀ y ∈ t, ¬ y.relPath = x.relPath) ∧ (t.map (·.relPath)).Nodup := by
        simpa using hnd
      rcases List.mem_cons.mp hf with rfl | hft
      · simp [tempOf, hc, zipLookup]
      · have hxne : x.relPath ≠ f.relPath := fun hx => hnd2.1 f hft hx.symm
        have hne : ¬ (x.relPath ++ ".zst" = f.relPath ++ ".zst") :=
          fun h => hxne (append_zst_inj h)
        cases hx : x.outcome <;>
          simp [tempOf, hx, zipLookup, hne, ih hnd2.2 hft]

/-- Every one of the five known category names hits a key of the extractor's
category table, whatever its current counters. -/
theorem extCategories_lookup_known (cs : ExtCategories) (name : String)
    (h : Categories.known name = true) : ∃ x, cs.lookup name = some x := by
  unfold Categories.known at h
  simp only [Bool.or_eq_true, decide_eq_true_eq] at h
  unfold ExtCategories.lookup
  rcases h with (((h | h) | h) | h) | h <;> subst h <;> simp

/-- The classifier's output is always a known category name. -/
theorem get_file_category_known (p : String) :
    Categories.known (get_file_category p) = true := by
  rcases get_file_category_mem p with h | h | h | h | h <;> rw [h] <;> decide

/-- When every manifest entry has a compressed member and a known category,
extractor.py writes exactly one decompressed output per entry, in manifest order. -/
theorem extractor_foldl_outputs_full (codec : Codec)
    (ar : List (String × MemberData)) :
    ∀ (files : List FileMeta) (st : ExtState),
      (∀ fi ∈ files,
        (∃ b, zipLookup ar (fi.path ++ ".zst") = some (MemberData.blob b)) ∧
          Categories.known fi.category = true) →
      (files.foldl (extractor_step codec ar) st).outputs
        = st.outputs ++ files.map (fun fi =>
            (fi.path, codec.decompress (memberBlob ar (fi.path ++ ".zst")))) := by
  intro files
  induction files with
  | nil =>
      intro st h
      simp
  | cons fi t ih =>
      intro st h
      obtain ⟨⟨b, hb⟩, hknown⟩ := h fi (List.mem_cons_self fi t)
      have ht : ∀ g ∈ t,
          (∃ b', zipLookup ar (g.path ++ ".zst") = some (MemberData.blob b')) ∧
            Categories.known g.category = true :=
        fun g hg => h g (List.mem_cons_of_mem fi hg)
      have hmb : memberBlob ar (fi.path ++ ".zst") = b := by
        unfold memberBlob
        rw [hb]
      have hstep : (extractor_step codec ar st fi).outputs
          = st.outputs ++ [(fi.path, codec.decompress b)] := by
        unfold extractor_step
        rw [hb]
        obtain ⟨x, hx⟩ := extCategories_lookup_known st.categories fi.category hknown
        simp [hx]
      rw [List.foldl_cons, ih _ ht, hstep]
      simp [hmb]

/-- In an output tree written once per distinct path, the lookup of a written path
gives its bytes. -/
theorem lookupOut_map_nodup (g : FileMeta → List Nat) (files : List FileMeta)
    (hnd : (files.map (·.path)).Nodup) (fm : FileMeta) (hfm : fm ∈ files) :
    lookupOut (files.map (fun fi => (fi.path, g fi))) fm.path = some (g fm) := by
  induction files with
  | nil => cases hfm
  | cons x t ih =>
      have hnd2 : (∀ y ∈ t, ¬ y.path = x.path) ∧ (t.map (·.path)).Nodup := by
        simpa using hnd
      rcases List.mem_cons.mp hfm with rfl | hft
      · simp [lookupOut]
      · have hx : ¬ (x.path = fm.path) := fun h => hnd2.1 fm hft h.symm
        simp [lookupOut, hx, ih hnd2.2 hft]

/-- Claim C1: building an archive with `create_arcx_archive` and extracting it with
`extract_arcx_archive` reproduces every successfully archived file byte-identical to
the original at its original relative path, assuming the codec round-trips; and for
the three-file tree `bg.png`/`voice.ogg`/`notes.txt` under automatic policy the
archive holds 4 members (manifest + 3 files) compressed at levels 5, 2 and 12
respectively. -/
theorem claim_c1 (codec : Codec)
    (hrt : ∀ lvl x, codec.decompress (codec.compress lvl x) = x)
    (dir created : String) (override : Option Nat) (tree : List SourceFile)
    (hnd : (tree.map (·.relPath)).Nodup) (b₁ b₂ b₃ : List Nat) :
    (∀ f ∈ tree, ∀ c, f.outcome = .ok c →
      ((extract_arcx_archive_extractor codec
          (create_arcx_archive codec dir override created tree).container).result.map
        (fun s => lookupOut s.outputs f.relPath)) = Except.ok (some c)) ∧
    (create_arcx_archive codec "game" none created
        [⟨"bg.png", .ok b₁⟩, ⟨"voice.ogg", .ok b₂⟩,
         ⟨"notes.txt", .ok b₃⟩]).container.length = 4 ∧
    (create_arcx_archive codec "game" none created
        [⟨"bg.png", .ok b₁⟩, ⟨"voice.ogg", .ok b₂⟩,
         ⟨"notes.txt", .ok b₃⟩]).metadata.files.map (·.compression_level)
      = [5, 2, 12] := by
  refine ⟨?_, ?_, ?_⟩
  · intro f hf c hc
    have hcont := create_container_eq codec dir created override tree
    have hfiles := create_metadata_files codec dir created override tree
    set temp := tree.filterMap (tempOf codec dir override) with htemp
    set M := (create_arcx_archive codec dir override created tree).metadata with hM
    rw [hcont, extractor_run_meta_head]
    have hgood : ∀ fi ∈ M.files,
        (∃ b, zipLookup (("arcx_metadata.json", MemberData.meta M) :: temp)
            (fi.path ++ ".zst") = some (MemberData.blob b)) ∧
          Categories.known fi.category = true := by
      intro fi hfi
      rw [hM, hfiles, List.mem_filterMap] at hfi
      obtain ⟨g, hg, hgm⟩ := hfi
      cases hgo : g.outcome with
      | ok cg =>
          simp only [metaOf, hgo, Option.some.injEq] at hgm
          constructor
          · refine ⟨codec.compress
              (resolve_file_level override (dir ++ "/" ++ g.relPath)) cg, ?_⟩
            rw [← hgm, zipLookup_manifest_cons]
            exact zipLookup_temp codec dir override tree hnd g hg cg hgo
          · rw [← hgm]
            exact get_file_category_known _
      | failAtOpen => simp [metaOf, hgo] at hgm
      | failMid w => simp [metaOf, hgo] at hgm
    have hout := extractor_foldl_outputs_full codec
        (("arcx_metadata.json", MemberData.meta M) :: temp) M.files ExtState.init hgood
    have hfmem : (⟨f.relPath, get_file_category (dir ++ "/" ++ f.relPath),
        resolve_file_level override (dir ++ "/" ++ f.relPath), c.length,
        (codec.compress (resolve_file_level override (dir ++ "/" ++ f.relPath))
          c).length⟩ : FileMeta) ∈ M.files := by
      rw [hM, hfiles, List.mem_filterMap]
      exact ⟨f, hf, by simp [metaOf, hc]⟩
    have hndp : (M.files.map (·.path)).Nodup := by
      rw [hM, hfiles, create_files_paths]
      exact List.Nodup.sublist (List.Sublist.map _ (List.filter_sublist tree)) hnd
    have hmb : memberBlob (("arcx_metadata.json", MemberData.meta M) :: temp)
        (f.relPath ++ ".zst")
        = codec.compress (resolve_file_level override (dir ++ "/" ++ f.relPath)) c := by
      unfold memberBlob
      rw [zipLookup_manifest_cons, zipLookup_temp codec dir override tree hnd f hf c hc]
    simp only [Except.map, Except.ok.injEq]
    rw [hout]
    simp only [ExtState.init, List.nil_append]
    have hlk := lookupOut_map_nodup (fun fi =>
        codec.decompress (memberBlob (("arcx_metadata.json", MemberData.meta M) :: temp)
          (fi.path ++ ".zst"))) M.files hndp _ hfmem
    simpa [hmb, hrt] using hlk
  · rw [create_container_eq]
    simp [tempOf]
  · rw [create_metadata_files]
    simp [metaOf]
    decide

/-- Witness for C1 on a concrete three-file tree with a round-tripping codec. -/
theorem claim_c1_witness :
    ((extract_arcx_archive_extractor idCodec
        (create_arcx_archive idCodec "game" none "t"
          [⟨"bg.png", .ok [1, 2]⟩, ⟨"voice.ogg", .ok [3]⟩,
           ⟨"notes.txt", .ok [4, 5]⟩]).container).result.map
      (fun s => lookupOut s.outputs "bg.png")) = Except.ok (some [1, 2]) ∧
    (create_arcx_archive idCodec "game" none "t"
        [⟨"bg.png", .ok [1, 2]⟩, ⟨"voice.ogg", .ok [3]⟩,
         ⟨"notes.txt", .ok [4, 5]⟩]).container.length = 4 := by
  have h := claim_c1 idCodec (fun _ _ => rfl) "game" "t" none
    [⟨"bg.png", .ok [1, 2]⟩, ⟨"voice.ogg", .ok [3]⟩, ⟨"notes.txt", .ok [4, 5]⟩]
    (by decide) [1, 2] [3] [4, 5]
  exact ⟨h.1 ⟨"bg.png", .ok [1, 2]⟩ (by decide) [1, 2] rfl, h.2.1⟩
